import Mathlib

/-!
Verification of crabz (a parallel gzip CLI) against its natural-language
specification.

The repository's own code (`src/main.rs`) is thin glue: argument validation,
input/output plumbing, broken-pipe handling.  The compression engine itself
(block splitting, stored-deflate framing, CRC32/length trailer, the streaming
member-by-member decompressor) lives in external libraries and is modelled
here from the specification.  Definitions coming from `src/main.rs` carry the
source names (`Opts`, `is_broken_pipe`, the `main` control flow as
`mainModel`); definitions carrying a `Modelled from the spec:` doc comment
embed the engine the spec describes.
-/

namespace Crabz

/-- Little-endian 4-byte encoding of a 32-bit value, as in the gzip trailer. -/
def toLE32 (v : Nat) : List Nat :=
  [v % 256, v / 256 % 256, v / 65536 % 256, v / 16777216 % 256]

/-- Read a little-endian 32-bit value from four bytes of a list at `off`. -/
def readLE32At (l : List Nat) (off : Nat) : Nat :=
  l.getD off 0 + 256 * l.getD (off + 1) 0 + 65536 * l.getD (off + 2) 0 +
    16777216 * l.getD (off + 3) 0

/-- Modelled from the spec: one bit-step of the reflected CRC-32
(polynomial 0xEDB88320), the "gzip CRC32 algorithm" of §3. -/
def crcStep (c : Nat) : Nat :=
  if c % 2 = 1 then (c / 2) ^^^ 3988292384 else c / 2

/-- Modelled from the spec: folding one input byte into a running CRC-32. -/
def crcByte (c b : Nat) : Nat :=
  crcStep (crcStep (crcStep (crcStep (crcStep (crcStep (crcStep (crcStep
    (c ^^^ (b % 256)))))))))

/-- Modelled from the spec: the gzip CRC32 of a byte sequence
(initial value 0, i.e. pre/post inverted 0xFFFFFFFF register). -/
def crc32 (data : List Nat) : Nat :=
  (data.foldl crcByte 4294967295) ^^^ 4294967295

/-- Modelled from the spec: an RFC 1951 stored (uncompressed) deflate block:
a block-header byte whose bit 0 is BFINAL and bits 1-2 are BTYPE = 00,
then LEN and its one's complement NLEN as little-endian 16-bit fields,
then the `LEN` raw bytes. -/
def encodeStoredBlock (final : Bool) (c : List Nat) : List Nat :=
  (if final then 1 else 0) :: (c.length % 256) :: (c.length / 256) ::
    ((65535 - c.length) % 256) :: ((65535 - c.length) / 256) :: c

/-- Modelled from the spec: the Block Splitter, fuelled so that every
definition stays executable.  Chunks are at most 32768 bytes; a zero-byte
input yields exactly one empty block. -/
def blockSplitF : Nat → List Nat → List (List Nat)
  | 0, s => [s]
  | f + 1, s =>
    if s.length ≤ 32768 then [s]
    else s.take 32768 :: blockSplitF f (s.drop 32768)

/-- Modelled from the spec: split an input stream into bounded blocks
(§4.1); the fuel `s.length` always suffices. -/
def blockSplit (s : List Nat) : List (List Nat) :=
  blockSplitF s.length s

/-- Modelled from the spec: emit each block as a stored deflate block,
setting BFINAL only on the last block of the run (§4.4). -/
def encodeBlocks : List (List Nat) → List Nat
  | [] => encodeStoredBlock true []
  | [c] => encodeStoredBlock true c
  | c :: c2 :: cs => encodeStoredBlock false c ++ encodeBlocks (c2 :: cs)

/-- Modelled from the spec: the XFL header byte "reflecting compression
level" (2 at maximum level, 4 at the fastest levels, 0 otherwise). -/
def xflByte (lvl : Nat) : Nat :=
  if lvl = 9 then 2 else if lvl ≤ 1 then 4 else 0

/-- Modelled from the spec: the fixed 10-byte gzip header — magic bytes
0x1f 0x8b, method 8 (deflate), flag byte 0, mtime 0, XFL from the level,
OS byte 0xff (§4.4). -/
def mkHeader (lvl : Nat) : List Nat :=
  [31, 139, 8, 0, 0, 0, 0, 0, xflByte lvl, 255]

/-- Modelled from the spec: the 8-byte gzip trailer — CRC32 of the
uncompressed input (little-endian) then the uncompressed length mod 2^32
(little-endian). -/
def mkTrailer (s : List Nat) : List Nat :=
  toLE32 (crc32 s) ++ toLE32 (s.length % 4294967296)

/-- Modelled from the spec: the byte transform performed by `run_compress`
via the gzp engine — header, ordered deflate blocks with BFINAL only on the
last, then the CRC32/length trailer.  The thread count influences only
scheduling, never the emitted bytes of this model. -/
def compress (s : List Nat) (lvl : Nat) (threads : Nat) : List Nat :=
  mkHeader lvl ++ (encodeBlocks (blockSplit s) ++ mkTrailer s)

/-- Failure modes of the modelled streaming decompressor (§7 taxonomy,
corrupt-input class). -/
inductive InflateError where
  | outOfFuel
  | truncatedHeader
  | badMagic
  | badMethod
  | unsupportedFlags
  | unsupportedBlockType
  | nlenMismatch
  | truncatedBlock
  | truncatedBlockHeader
  | truncatedTrailer
  | crcMismatch
  | lengthMismatch
  deriving DecidableEq, Repr

/-- Modelled from the spec: parse a sequence of stored deflate blocks,
returning the inflated content and the unconsumed remainder.  The NLEN
one's-complement check and all truncation checks are corrupt-input
failures.  Fuel `input.length` always suffices since every block consumes
at least five bytes. -/
def parseBlocksF : Nat → List Nat → Except InflateError (List Nat × List Nat)
  | 0, _ => .error .outOfFuel
  | f + 1, b0 :: l1 :: l2 :: n1 :: n2 :: rest =>
    if b0 / 2 % 4 ≠ 0 then .error .unsupportedBlockType
    else if l1 + 256 * l2 + (n1 + 256 * n2) ≠ 65535 then .error .nlenMismatch
    else if rest.length < l1 + 256 * l2 then .error .truncatedBlock
    else if b0 % 2 = 1 then
      .ok (rest.take (l1 + 256 * l2), rest.drop (l1 + 256 * l2))
    else
      match parseBlocksF f (rest.drop (l1 + 256 * l2)) with
      | .ok (c, r) => .ok (rest.take (l1 + 256 * l2) ++ c, r)
      | .error e => .error e
  | _ + 1, _ => .error .truncatedBlockHeader

/-- Modelled from the spec: read and validate one gzip member (§4.4
decompression side): 10-byte header with magic/method/flag validation,
deflate data, then trailer verification of CRC32 and length against the
locally accumulated values.  Returns the member's content and the bytes
remaining after the member. -/
def parseMember (bytes : List Nat) : Except InflateError (List Nat × List Nat) :=
  match bytes with
  | b0 :: b1 :: b2 :: b3 :: _ :: _ :: _ :: _ :: _ :: _ :: body =>
    if b0 ≠ 31 ∨ b1 ≠ 139 then .error .badMagic
    else if b2 ≠ 8 then .error .badMethod
    else if b3 ≠ 0 then .error .unsupportedFlags
    else
      match parseBlocksF body.length body with
      | .error e => .error e
      | .ok (content, rest) =>
        if rest.length < 8 then .error .truncatedTrailer
        else if readLE32At rest 0 ≠ crc32 content then .error .crcMismatch
        else if readLE32At rest 4 ≠ content.length % 4294967296 then
          .error .lengthMismatch
        else .ok (content, rest.drop 8)
  | _ => .error .truncatedHeader

/-- Modelled from the spec: the member loop — after a complete member,
clean end-of-input is success, remaining bytes start another member.
Fuel `bytes.length` always suffices since a member consumes at least one
byte. -/
def memberLoopF : Nat → List Nat → Except InflateError (List Nat)
  | 0, _ => .error .outOfFuel
  | f + 1, bytes =>
    match parseMember bytes with
    | .error e => .error e
    | .ok (content, rem) =>
      if rem.isEmpty then .ok content
      else
        match memberLoopF f rem with
        | .ok more => .ok (content ++ more)
        | .error e => .error e

/-- Modelled from the spec: the byte transform performed by
`run_decompress` — decode one or more concatenated gzip members, verifying
each member's CRC32 and length, and concatenate their contents. -/
def inflateMembers (bytes : List Nat) : Except InflateError (List Nat) :=
  memberLoopF bytes.length bytes

/-- A well-formed sequence of stored deflate blocks encoding `content`:
every block except the last has BFINAL clear, the last has it set
(§4.4, §6 wire format). -/
inductive DeflateSeq : List Nat → List Nat → Prop where
  | last (c : List Nat) (h : c.length ≤ 65535) :
      DeflateSeq (encodeStoredBlock true c) c
  | cons (c : List Nat) {B C : List Nat} (h : c.length ≤ 65535)
      (t : DeflateSeq B C) :
      DeflateSeq (encodeStoredBlock false c ++ B) (c ++ C)

/-- A valid gzip member carrying `content`: correct magic, method and flag
bytes, arbitrary mtime/XFL/OS bytes, a well-formed deflate block sequence,
and a trailer holding the content's CRC32 and length (§4.4). -/
def MemberBytes (bs content : List Nat) : Prop :=
  ∃ m4 m5 m6 m7 xf os B,
    bs = 31 :: 139 :: 8 :: 0 :: m4 :: m5 :: m6 :: m7 :: xf :: os ::
      (B ++ mkTrailer content) ∧ DeflateSeq B content

/-- Flip bit `k` of the byte at index `i` (out-of-range `i` leaves the
list unchanged). -/
def flipBit (l : List Nat) (i k : Nat) : List Nat :=
  l.set i ((l.getD i 0) ^^^ (2 ^ k))

/-! ## Embedding of `src/main.rs` -/

/-- The command-line options of `src/main.rs` (`struct Opts`). -/
structure Opts where
  output : Option String
  file : Option String
  compression_level : Nat
  compression_threads : Option Nat
  decompress : Bool

/-- The `std::io::ErrorKind` values relevant to `is_broken_pipe`. -/
inductive IOErrorKind where
  | brokenPipe
  | notFound
  | permissionDenied
  | unexpectedEof
  | otherKind
  deriving DecidableEq

/-- The root cause of an `anyhow::Error` as `is_broken_pipe` inspects it:
either an `io::Error` of some kind (the downcast succeeds) or any other
error value (the downcast fails). -/
inductive AppError where
  | ioErr (k : IOErrorKind)
  | msgErr (s : String)
  deriving DecidableEq

/-- `is_broken_pipe` from `src/main.rs`: the error's root cause downcasts
to an `io::Error` and its kind is `BrokenPipe`. -/
def is_broken_pipe (err : AppError) : Bool :=
  match err with
  | .ioErr .brokenPipe => true
  | _ => false

/-- The externally observable I/O actions of `main`, in program order. -/
inductive MainStep where
  | openInput
  | openOutput
  | runCompressStep (lvl threads : Nat)
  | runDecompressStep
  deriving DecidableEq

/-- How the `main` process terminates: `exit(0)` / `Ok(())` both yield a
clean termination, `return Err(err)` reports a failure. -/
inductive MainOutcome where
  | success
  | failure (e : AppError)
  deriving DecidableEq

/-- The control flow of `fn main` in `src/main.rs`: reject levels above 9
before touching any I/O, otherwise open the input then the output, run the
selected mode (whose result is supplied as the oracle `runResult`), and
downgrade a broken-pipe failure to `exit(0)`.  The second component is the
ordered trace of I/O actions performed. -/
def mainModel (o : Opts) (cpus : Nat) (runResult : Except AppError Unit) :
    MainOutcome × List MainStep :=
  if 9 < o.compression_level then
    (.failure (.msgErr "Invalid compression level"), [])
  else
    let steps := [MainStep.openInput, MainStep.openOutput,
      if o.decompress then MainStep.runDecompressStep
      else MainStep.runCompressStep o.compression_level
        (o.compression_threads.getD cpus)]
    match runResult with
    | .ok _ => (.success, steps)
    | .error e =>
      if is_broken_pipe e then (.success, steps) else (.failure e, steps)

/-- One read step of the `io::copy` loop inside `run_compress`: either a
chunk of input bytes arrives, or the copy fails (a source read error or a
sink write error — both abort the loop identically via `?`). -/
inductive ReadStep where
  | chunk (data : List Nat)
  | fail (e : AppError)

/-- Modelled from the spec: the copy-then-finish structure of
`run_compress`.  Each arriving chunk is compressed and written as a
non-final stored block; only when the source is exhausted does the finish
step append the terminal (BFINAL) block and the 8-byte trailer.  The first
failure aborts the run, leaving the sink exactly as already written. -/
def compressLoop (written data : List Nat) :
    List ReadStep → Except AppError Unit × List Nat
  | [] => (.ok (), written ++ (encodeStoredBlock true [] ++ mkTrailer data))
  | .fail e :: _ => (.error e, written)
  | .chunk c :: rest =>
      compressLoop (written ++ encodeStoredBlock false c) (data ++ c) rest

/-- Modelled from the spec: `run_compress` over a fallible source/sink:
write the gzip header, then run the copy loop. -/
def runCompressEvents (lvl : Nat) (events : List ReadStep) :
    Except AppError Unit × List Nat :=
  compressLoop (mkHeader lvl) [] events

/-! ## Auxiliary lemmas -/

lemma getD_set_self (l : List Nat) (i a : Nat) (h : i < l.length) :
    (l.set i a).getD i 0 = a := by
  induction l generalizing i with
  | nil => simp at h
  | cons x xs ih =>
    cases i with
    | zero => rfl
    | succ n => exact ih n (by simpa using h)

lemma getD_set_other (l : List Nat) (i j a : Nat) (h : i ≠ j) :
    (l.set i a).getD j 0 = l.getD j 0 := by
  induction l generalizing i j with
  | nil => rfl
  | cons x xs ih =>
    cases i with
    | zero =>
      cases j with
      | zero => exact absurd rfl h
      | succ m => rfl
    | succ n =>
      cases j with
      | zero => rfl
      | succ m => exact ih n m (by omega)

lemma set_append_right_of_le (xs ys : List Nat) (i a : Nat)
    (h : xs.length ≤ i) :
    (xs ++ ys).set i a = xs ++ ys.set (i - xs.length) a := by
  induction xs generalizing i with
  | nil => simp
  | cons x t ih =>
    cases i with
    | zero => simp at h
    | succ n =>
      have h' : t.length ≤ n := by simpa using h
      have h2 : n + 1 - (x :: t).length = n - t.length := by
        simp only [List.length_cons]
        omega
      rw [h2]
      show x :: (t ++ ys).set n a = x :: (t ++ ys.set (n - t.length) a)
      rw [ih n h']

lemma crcStep_lt (c : Nat) (h : c < 4294967296) : crcStep c < 4294967296 := by
  unfold crcStep
  split
  · have h1 : c / 2 < 2 ^ 32 := by omega
    have h2 : (3988292384 : Nat) < 2 ^ 32 := by norm_num
    have := Nat.xor_lt_two_pow h1 h2
    omega
  · omega

lemma crcByte_lt (c b : Nat) (h : c < 4294967296) :
    crcByte c b < 4294967296 := by
  unfold crcByte
  have h1 : c < 2 ^ 32 := by omega
  have h2 : b % 256 < 2 ^ 32 := by
    have : b % 256 < 256 := Nat.mod_lt _ (by norm_num)
    omega
  have hx : c ^^^ (b % 256) < 4294967296 := by
    have := Nat.xor_lt_two_pow h1 h2
    omega
  exact crcStep_lt _ (crcStep_lt _ (crcStep_lt _ (crcStep_lt _ (crcStep_lt _
    (crcStep_lt _ (crcStep_lt _ (crcStep_lt _ hx)))))))

lemma foldl_crcByte_lt (l : List Nat) (c : Nat) (h : c < 4294967296) :
    l.foldl crcByte c < 4294967296 := by
  induction l generalizing c with
  | nil => simpa using h
  | cons b t ih => exact ih _ (crcByte_lt c b h)

lemma crc32_lt (l : List Nat) : crc32 l < 4294967296 := by
  unfold crc32
  have h1 : l.foldl crcByte 4294967295 < 2 ^ 32 := by
    have := foldl_crcByte_lt l 4294967295 (by norm_num)
    omega
  have h2 : (4294967295 : Nat) < 2 ^ 32 := by norm_num
  have := Nat.xor_lt_two_pow h1 h2
  omega

lemma readLE32At_append0 (a : Nat) (rest : List Nat) (ha : a < 4294967296) :
    readLE32At (toLE32 a ++ rest) 0 = a := by
  simp [readLE32At, toLE32, List.getD_cons_zero, List.getD_cons_succ]
  omega

lemma readLE32At_toLE32 (a : Nat) (ha : a < 4294967296) :
    readLE32At (toLE32 a) 0 = a := by
  simp [readLE32At, toLE32, List.getD_cons_zero, List.getD_cons_succ]
  omega

lemma readLE32At_skip4 (a : Nat) (l : List Nat) :
    readLE32At (toLE32 a ++ l) 4 = readLE32At l 0 := by
  simp [readLE32At, toLE32, List.getD_cons_zero, List.getD_cons_succ]

lemma parseBlocksF_encode {B C : List Nat} (hd : DeflateSeq B C) :
    ∀ (fuel : Nat) (rest : List Nat), B.length ≤ fuel →
      parseBlocksF fuel (B ++ rest) = .ok (C, rest) := by
  induction hd with
  | last c hc =>
    intro fuel rest hf
    have hlen : (encodeStoredBlock true c).length = c.length + 5 := by
      simp [encodeStoredBlock]
    rw [hlen] at hf
    obtain ⟨f, rfl⟩ : ∃ f, fuel = f + 1 := ⟨fuel - 1, by omega⟩
    have heq : encodeStoredBlock true c ++ rest =
        1 :: (c.length % 256) :: (c.length / 256) ::
        ((65535 - c.length) % 256) :: ((65535 - c.length) / 256) ::
        (c ++ rest) := by simp [encodeStoredBlock]
    rw [heq]
    have e1 : ¬((1:Nat) / 2 % 4 ≠ 0) := by norm_num
    have e2 : ¬(c.length % 256 + 256 * (c.length / 256) +
        ((65535 - c.length) % 256 + 256 * ((65535 - c.length) / 256)) ≠ 65535) := by
      omega
    have e3 : ¬((c ++ rest).length < c.length % 256 + 256 * (c.length / 256)) := by
      rw [List.length_append]; omega
    have hlen2 : c.length % 256 + 256 * (c.length / 256) = c.length := by omega
    simp only [parseBlocksF]
    rw [if_neg e1, if_neg e2, if_neg e3]
    rw [hlen2]
    simp [List.take_left, List.drop_left]
  | cons c hc t ih =>
    intro fuel rest hf
    rename_i B' C'
    have hlen : (encodeStoredBlock false c ++ B').length =
        c.length + 5 + B'.length := by
      simp [encodeStoredBlock]; omega
    rw [hlen] at hf
    obtain ⟨f, rfl⟩ : ∃ f, fuel = f + 1 := ⟨fuel - 1, by omega⟩
    have heq : (encodeStoredBlock false c ++ B') ++ rest =
        0 :: (c.length % 256) :: (c.length / 256) ::
        ((65535 - c.length) % 256) :: ((65535 - c.length) / 256) ::
        (c ++ (B' ++ rest)) := by simp [encodeStoredBlock]
    rw [heq]
    have e2 : ¬(c.length % 256 + 256 * (c.length / 256) +
        ((65535 - c.length) % 256 + 256 * ((65535 - c.length) / 256)) ≠ 65535) := by
      omega
    have e3 : ¬((c ++ (B' ++ rest)).length <
        c.length % 256 + 256 * (c.length / 256)) := by
      rw [List.length_append]; omega
    have hlen2 : c.length % 256 + 256 * (c.length / 256) = c.length := by omega
    simp only [parseBlocksF]
    rw [if_neg (by norm_num : ¬((0:Nat) / 2 % 4 ≠ 0)), if_neg e2, if_neg e3]
    rw [hlen2]
    rw [List.take_left, List.drop_left, ih f rest (by omega)]
    simp

lemma parseMember_structure (m4 m5 m6 m7 xf os : Nat) {B C : List Nat}
    (T' : List Nat) (hd : DeflateSeq B C) (h8 : 8 ≤ T'.length) :
    parseMember (31 :: 139 :: 8 :: 0 :: m4 :: m5 :: m6 :: m7 :: xf :: os ::
        (B ++ T')) =
      if readLE32At T' 0 ≠ crc32 C then .error .crcMismatch
      else if readLE32At T' 4 ≠ C.length % 4294967296 then
        .error .lengthMismatch
      else .ok (C, T'.drop 8) := by
  simp only [parseMember]
  rw [parseBlocksF_encode hd (B ++ T').length T'
    (by rw [List.length_append]; omega)]
  simp only [if_neg (by omega : ¬T'.length < 8)]
  simp

lemma memberLoopF_ok_single {bytes c : List Nat} (f : Nat)
    (h : parseMember bytes = .ok (c, [])) (hf : 0 < f) :
    memberLoopF f bytes = .ok c := by
  obtain ⟨f', rfl⟩ : ∃ f', f = f' + 1 := ⟨f - 1, by omega⟩
  simp [memberLoopF, h]

lemma memberLoopF_of_error {bytes : List Nat} {e : InflateError} (f : Nat)
    (h : parseMember bytes = .error e) (hf : 0 < f) :
    memberLoopF f bytes = .error e := by
  obtain ⟨f', rfl⟩ : ∃ f', f = f' + 1 := ⟨f - 1, by omega⟩
  simp [memberLoopF, h]

lemma blockSplitF_spec : ∀ (f : Nat) (s : List Nat), s.length ≤ f + 32768 →
    (blockSplitF f s).flatten = s ∧ blockSplitF f s ≠ [] ∧
      ∀ c ∈ blockSplitF f s, c.length ≤ 65535 := by
  intro f
  induction f with
  | zero =>
    intro s h
    refine ⟨by simp [blockSplitF], by simp [blockSplitF], ?_⟩
    intro c hc
    simp [blockSplitF] at hc
    subst hc
    omega
  | succ f ih =>
    intro s h
    by_cases hs : s.length ≤ 32768
    · refine ⟨by simp [blockSplitF, hs], by simp [blockSplitF, hs], ?_⟩
      intro c hc
      simp [blockSplitF, hs] at hc
      subst hc
      omega
    · have hdrop : (s.drop 32768).length ≤ f + 32768 := by
        simp [List.length_drop]
        omega
      obtain ⟨hjoin, hne, hmem⟩ := ih (s.drop 32768) hdrop
      have hsplit : blockSplitF (f + 1) s =
          s.take 32768 :: blockSplitF f (s.drop 32768) := by
        simp [blockSplitF, hs]
      refine ⟨?_, by simp [hsplit], ?_⟩
      · rw [hsplit, List.flatten_cons, hjoin]
        exact List.take_append_drop 32768 s
      · intro c hc
        rw [hsplit] at hc
        rcases List.mem_cons.mp hc with h1 | h2
        · subst h1
          simp [List.length_take]
        · exact hmem c h2

lemma deflateSeq_encodeBlocks : ∀ (chunks : List (List Nat)), chunks ≠ [] →
    (∀ c ∈ chunks, c.length ≤ 65535) →
    DeflateSeq (encodeBlocks chunks) chunks.flatten := by
  intro chunks
  induction chunks with
  | nil => intro h; exact absurd rfl h
  | cons c cs ih =>
    intro _ hmem
    cases cs with
    | nil =>
      show DeflateSeq (encodeStoredBlock true c) ([c].flatten)
      simp only [List.flatten_cons, List.flatten_nil, List.append_nil]
      exact DeflateSeq.last c (hmem c (by simp))
    | cons c2 cs2 =>
      show DeflateSeq (encodeStoredBlock false c ++ encodeBlocks (c2 :: cs2))
        ((c :: c2 :: cs2).flatten)
      simp only [List.flatten_cons]
      exact DeflateSeq.cons c (hmem c (by simp))
        (by simpa only [List.flatten_cons] using
          ih (by simp) (fun x hx => hmem x (by simp [hx])))

lemma deflateSeq_compress (s : List Nat) :
    DeflateSeq (encodeBlocks (blockSplit s)) s := by
  obtain ⟨hjoin, hne, hmem⟩ := blockSplitF_spec s.length s (by omega)
  have h := deflateSeq_encodeBlocks (blockSplitF s.length s) hne hmem
  rw [hjoin] at h
  exact h

lemma compress_eq (s : List Nat) (lvl threads : Nat) :
    compress s lvl threads =
      31 :: 139 :: 8 :: 0 :: 0 :: 0 :: 0 :: 0 :: xflByte lvl :: 255 ::
        (encodeBlocks (blockSplit s) ++ mkTrailer s) := by
  simp [compress, mkHeader]

lemma mkTrailer_length (s : List Nat) : (mkTrailer s).length = 8 := by
  simp [mkTrailer, toLE32]

lemma readLE32At_mkTrailer0 (s : List Nat) :
    readLE32At (mkTrailer s) 0 = crc32 s := by
  rw [mkTrailer]
  exact readLE32At_append0 _ _ (crc32_lt s)

lemma readLE32At_mkTrailer4 (s : List Nat) :
    readLE32At (mkTrailer s) 4 = s.length % 4294967296 := by
  rw [mkTrailer, readLE32At_skip4]
  exact readLE32At_toLE32 _ (Nat.mod_lt _ (by norm_num))

lemma parseMember_compress (s : List Nat) (lvl threads : Nat) :
    parseMember (compress s lvl threads) = .ok (s, []) := by
  rw [compress_eq]
  rw [parseMember_structure 0 0 0 0 (xflByte lvl) 255 (mkTrailer s)
    (deflateSeq_compress s) (by rw [mkTrailer_length])]
  rw [readLE32At_mkTrailer0, readLE32At_mkTrailer4]
  simp [mkTrailer, toLE32]

lemma xor_pow_ne (b k : Nat) : b ^^^ (2 ^ k) ≠ b := by
  intro h
  have h2 : b ^^^ (b ^^^ (2 ^ k)) = b ^^^ b := by rw [h]
  rw [← Nat.xor_assoc, Nat.xor_self, Nat.zero_xor] at h2
  have hp : 0 < 2 ^ k := pow_pos (by norm_num) k
  omega

lemma trailer_append_read0 (c next : List Nat) :
    readLE32At (mkTrailer c ++ next) 0 = crc32 c := by
  rw [mkTrailer, List.append_assoc]
  exact readLE32At_append0 _ _ (crc32_lt c)

lemma trailer_append_read4 (c next : List Nat) :
    readLE32At (mkTrailer c ++ next) 4 = c.length % 4294967296 := by
  rw [mkTrailer, List.append_assoc, readLE32At_skip4]
  exact readLE32At_append0 _ _ (Nat.mod_lt _ (by norm_num))

lemma trailer_append_drop8 (c next : List Nat) :
    (mkTrailer c ++ next).drop 8 = next := by
  have h := List.drop_left (mkTrailer c) next
  rwa [mkTrailer_length] at h

lemma parseMember_memberBytes {bs c : List Nat} (h : MemberBytes bs c)
    (next : List Nat) : parseMember (bs ++ next) = .ok (c, next) := by
  obtain ⟨m4, m5, m6, m7, xf, os, B, rfl, hd⟩ := h
  have hshift : (31 :: 139 :: 8 :: 0 :: m4 :: m5 :: m6 :: m7 :: xf :: os ::
      (B ++ mkTrailer c)) ++ next =
      31 :: 139 :: 8 :: 0 :: m4 :: m5 :: m6 :: m7 :: xf :: os ::
      (B ++ (mkTrailer c ++ next)) := by simp
  rw [hshift, parseMember_structure m4 m5 m6 m7 xf os (mkTrailer c ++ next) hd
    (by rw [List.length_append, mkTrailer_length]; omega)]
  rw [trailer_append_read0, trailer_append_read4]
  simp [trailer_append_drop8]

lemma memberBytes_ne_nil {bs c : List Nat} (h : MemberBytes bs c) :
    bs ≠ [] := by
  obtain ⟨m4, m5, m6, m7, xf, os, B, rfl, _⟩ := h
  simp

lemma length_le_flatten_length (ms : List (List Nat × List Nat))
    (h : ∀ p ∈ ms, p.1 ≠ []) :
    ms.length ≤ (ms.map Prod.fst).flatten.length := by
  induction ms with
  | nil => simp
  | cons p t ih =>
    simp only [List.map_cons, List.flatten_cons, List.length_append,
      List.length_cons]
    have h1 : p.1 ≠ [] := h p (by simp)
    have h2 : 1 ≤ p.1.length := by
      cases hp : p.1 with
      | nil => exact absurd hp h1
      | cons a l => simp
    have h3 := ih (fun q hq => h q (by simp [hq]))
    omega

lemma memberLoopF_concat : ∀ (ms : List (List Nat × List Nat)) (f : Nat),
    ms ≠ [] → (∀ p ∈ ms, MemberBytes p.1 p.2) → ms.length ≤ f →
    memberLoopF f (ms.map Prod.fst).flatten =
      .ok (ms.map Prod.snd).flatten := by
  intro ms
  induction ms with
  | nil => intro f h; exact absurd rfl h
  | cons p t ih =>
    intro f _ hmem hf
    simp only [List.length_cons] at hf
    obtain ⟨f', rfl⟩ : ∃ f', f = f' + 1 := ⟨f - 1, by omega⟩
    have hp : MemberBytes p.1 p.2 := hmem p (by simp)
    cases t with
    | nil =>
      simp only [List.map_cons, List.map_nil, List.flatten_cons,
        List.flatten_nil, List.append_nil]
      exact memberLoopF_ok_single _
        (by
          have hparse := parseMember_memberBytes hp []
          rwa [List.append_nil] at hparse)
        (by omega)
    | cons q t2 =>
      have hq1 : q.1 ≠ [] := memberBytes_ne_nil (hmem q (by simp))
      have hne2 : q.1 ++ (t2.map Prod.fst).flatten ≠ [] := by
        intro hc
        rcases List.append_eq_nil.mp hc with ⟨h1, _⟩
        exact hq1 h1
      simp only [List.map_cons, List.flatten_cons]
      have hparse := parseMember_memberBytes hp
        (q.1 ++ (t2.map Prod.fst).flatten)
      have htail := ih f' (by simp) (fun r hr => hmem r (by simp [hr]))
        (by simp only [List.length_cons] at hf ⊢; omega)
      simp only [List.map_cons, List.flatten_cons] at htail
      simp only [memberLoopF, hparse]
      rw [if_neg (by simpa [List.isEmpty_iff] using hne2)]
      rw [htail]

/-- C1: for every byte sequence, every compression level in [0,9] and every
thread count, decompressing the bytes produced by compression yields exactly
the original sequence. -/
theorem decompress_compress_roundtrip (S : List Nat) (lvl threads : Nat)
    (h : lvl ≤ 9) :
    inflateMembers (compress S lvl threads) = .ok S := by
  have hpos : 0 < (compress S lvl threads).length := by
    rw [compress_eq]; simp
  show memberLoopF _ _ = _
  exact memberLoopF_ok_single _ (parseMember_compress S lvl threads) hpos

/-- C1 witness: a concrete round trip at level 9 with two threads. -/
theorem decompress_compress_roundtrip_witness :
    inflateMembers (compress [1, 2, 3] 9 2) = .ok [1, 2, 3] :=
  decompress_compress_roundtrip [1, 2, 3] 9 2 (by norm_num)

/-- C2: an input that is the concatenation of two or more valid gzip
members decompresses to the concatenation of the members' contents, in
member order. -/
theorem multi_member_concat (ms : List (List Nat × List Nat))
    (hmem : ∀ p ∈ ms, MemberBytes p.1 p.2) (h2 : 2 ≤ ms.length) :
    inflateMembers (ms.map Prod.fst).flatten =
      .ok (ms.map Prod.snd).flatten := by
  show memberLoopF _ _ = _
  apply memberLoopF_concat ms _ (by rintro rfl; simp at h2) hmem
  exact length_le_flatten_length ms
    (fun p hp => memberBytes_ne_nil (hmem p hp))

/-- C2 witness: two concrete concatenated members. -/
theorem multi_member_concat_witness :
    inflateMembers
        (([(compress [1] 3 1, [1]), (compress [2] 5 2, [2])].map
          Prod.fst).flatten) =
      .ok (([(compress [1] 3 1, [1]), (compress [2] 5 2, [2])].map
          Prod.snd).flatten) := by
  apply multi_member_concat
  · intro p hp
    simp only [List.mem_cons, List.not_mem_nil, or_false] at hp
    rcases hp with rfl | rfl
    · exact ⟨0, 0, 0, 0, xflByte 3, 255, encodeBlocks (blockSplit [1]),
        rfl, deflateSeq_compress [1]⟩
    · exact ⟨0, 0, 0, 0, xflByte 5, 255, encodeBlocks (blockSplit [2]),
        rfl, deflateSeq_compress [2]⟩
  · norm_num

lemma readLE32At_set_outside (T : List Nat) (j a o : Nat)
    (h : ∀ idx, o ≤ idx → idx < o + 4 → idx ≠ j) :
    readLE32At (T.set j a) o = readLE32At T o := by
  unfold readLE32At
  rw [getD_set_other T j o a (fun he => (h o le_rfl (by omega)) he.symm),
    getD_set_other T j (o + 1) a (fun he => (h (o + 1) (by omega) (by omega)) he.symm),
    getD_set_other T j (o + 2) a (fun he => (h (o + 2) (by omega) (by omega)) he.symm),
    getD_set_other T j (o + 3) a (fun he => (h (o + 3) (by omega) (by omega)) he.symm)]

lemma readLE32At_set_inside_ne (T : List Nat) (o j a : Nat)
    (hoj : o ≤ j) (hj4 : j < o + 4) (hjT : j < T.length)
    (hne : a ≠ T.getD j 0) :
    readLE32At (T.set j a) o ≠ readLE32At T o := by
  have hcases : j = o ∨ j = o + 1 ∨ j = o + 2 ∨ j = o + 3 := by omega
  unfold readLE32At
  rcases hcases with rfl | rfl | rfl | rfl
  · rw [getD_set_self T j a hjT,
      getD_set_other T j (j + 1) a (by omega),
      getD_set_other T j (j + 2) a (by omega),
      getD_set_other T j (j + 3) a (by omega)]
    omega
  · rw [getD_set_self T (o + 1) a hjT,
      getD_set_other T (o + 1) o a (by omega),
      getD_set_other T (o + 1) (o + 2) a (by omega),
      getD_set_other T (o + 1) (o + 3) a (by omega)]
    omega
  · rw [getD_set_self T (o + 2) a hjT,
      getD_set_other T (o + 2) o a (by omega),
      getD_set_other T (o + 2) (o + 1) a (by omega),
      getD_set_other T (o + 2) (o + 3) a (by omega)]
    omega
  · rw [getD_set_self T (o + 3) a hjT,
      getD_set_other T (o + 3) o a (by omega),
      getD_set_other T (o + 3) (o + 1) a (by omega),
      getD_set_other T (o + 3) (o + 2) a (by omega)]
    omega

/-- C3 counterexample: flipping bit 3 of the byte at offset 10 of a
compressed stream — a padding bit of the stored-block header byte, i.e. a
payload byte — produces a genuinely different stream on which
decompression still succeeds, so not every payload/trailer bit flip causes
a failure.  The recovered output equals the original input, so no
wrong-output success occurs either. -/
theorem payload_bitflip_not_detected :
    flipBit (compress [1, 2, 3] 3 1) 10 3 ≠ compress [1, 2, 3] 3 1 ∧
    inflateMembers (flipBit (compress [1, 2, 3] 3 1) 10 3) =
      .ok [1, 2, 3] := by
  constructor
  · decide
  · rfl

/-- C3 amended: every single-bit flip inside the 8-byte trailer of a
stream produced by `compress` makes decompression fail with an error
(the payload part of the original claim is refuted by
`payload_bitflip_not_detected`). -/
theorem trailer_bitflip_fails (S : List Nat) (lvl threads i k : Nat)
    (hlvl : lvl ≤ 9) (hk : k < 8)
    (hlo : (compress S lvl threads).length - 8 ≤ i)
    (hhi : i < (compress S lvl threads).length) :
    ∃ e, inflateMembers (flipBit (compress S lvl threads) i k) = .error e := by
  have hPT : compress S lvl threads =
      (mkHeader lvl ++ encodeBlocks (blockSplit S)) ++ mkTrailer S := by
    simp [compress]
  have hTlen := mkTrailer_length S
  have hlenC : (compress S lvl threads).length =
      (mkHeader lvl ++ encodeBlocks (blockSplit S)).length + 8 := by
    rw [hPT, List.length_append, hTlen]
  have hiP : (mkHeader lvl ++ encodeBlocks (blockSplit S)).length ≤ i := by
    omega
  have hj8 : i - (mkHeader lvl ++ encodeBlocks (blockSplit S)).length < 8 := by
    omega
  have hflip : flipBit (compress S lvl threads) i k =
      (mkHeader lvl ++ encodeBlocks (blockSplit S)) ++
        (mkTrailer S).set (i - (mkHeader lvl ++ encodeBlocks (blockSplit S)).length)
          ((mkTrailer S).getD
            (i - (mkHeader lvl ++ encodeBlocks (blockSplit S)).length) 0 ^^^
            (2 ^ k)) := by
    rw [flipBit, hPT, set_append_right_of_le _ _ _ _ hiP,
      List.getD_append_right _ _ _ _ hiP]
  have hflen : (flipBit (compress S lvl threads) i k).length =
      (mkHeader lvl ++ encodeBlocks (blockSplit S)).length + 8 := by
    rw [flipBit, List.length_set, hlenC]
  have hparse : ∃ e,
      parseMember (flipBit (compress S lvl threads) i k) = .error e := by
    rw [hflip]
    have hcons : (mkHeader lvl ++ encodeBlocks (blockSplit S)) ++
        (mkTrailer S).set (i - (mkHeader lvl ++ encodeBlocks (blockSplit S)).length)
          ((mkTrailer S).getD
            (i - (mkHeader lvl ++ encodeBlocks (blockSplit S)).length) 0 ^^^
            (2 ^ k)) =
        31 :: 139 :: 8 :: 0 :: 0 :: 0 :: 0 :: 0 :: xflByte lvl :: 255 ::
        (encodeBlocks (blockSplit S) ++
          (mkTrailer S).set (i - (mkHeader lvl ++ encodeBlocks (blockSplit S)).length)
            ((mkTrailer S).getD
              (i - (mkHeader lvl ++ encodeBlocks (blockSplit S)).length) 0 ^^^
              (2 ^ k))) := by
      simp [mkHeader]
    rw [hcons, parseMember_structure 0 0 0 0 (xflByte lvl) 255 _
      (deflateSeq_compress S) (by rw [List.length_set, hTlen])]
    by_cases hj4 : i - (mkHeader lvl ++ encodeBlocks (blockSplit S)).length < 4
    · have hcond : readLE32At
          ((mkTrailer S).set (i - (mkHeader lvl ++ encodeBlocks (blockSplit S)).length)
            ((mkTrailer S).getD
              (i - (mkHeader lvl ++ encodeBlocks (blockSplit S)).length) 0 ^^^
              (2 ^ k))) 0 ≠ crc32 S := by
        rw [← readLE32At_mkTrailer0 S]
        exact readLE32At_set_inside_ne (mkTrailer S) 0 _ _ (by omega) (by omega)
          (by omega) (xor_pow_ne _ k)
      exact ⟨.crcMismatch, by rw [if_pos hcond]⟩
    · have heq0 : readLE32At
          ((mkTrailer S).set (i - (mkHeader lvl ++ encodeBlocks (blockSplit S)).length)
            ((mkTrailer S).getD
              (i - (mkHeader lvl ++ encodeBlocks (blockSplit S)).length) 0 ^^^
              (2 ^ k))) 0 = readLE32At (mkTrailer S) 0 :=
        readLE32At_set_outside _ _ _ 0 (by omega)
      have hcond1 : ¬(readLE32At
          ((mkTrailer S).set (i - (mkHeader lvl ++ encodeBlocks (blockSplit S)).length)
            ((mkTrailer S).getD
              (i - (mkHeader lvl ++ encodeBlocks (blockSplit S)).length) 0 ^^^
              (2 ^ k))) 0 ≠ crc32 S) := by
        rw [heq0, readLE32At_mkTrailer0]
        simp
      have hcond2 : readLE32At
          ((mkTrailer S).set (i - (mkHeader lvl ++ encodeBlocks (blockSplit S)).length)
            ((mkTrailer S).getD
              (i - (mkHeader lvl ++ encodeBlocks (blockSplit S)).length) 0 ^^^
              (2 ^ k))) 4 ≠ S.length % 4294967296 := by
        rw [← readLE32At_mkTrailer4 S]
        exact readLE32At_set_inside_ne (mkTrailer S) 4 _ _ (by omega) (by omega)
          (by omega) (xor_pow_ne _ k)
      exact ⟨.lengthMismatch, by rw [if_neg hcond1, if_pos hcond2]⟩
  obtain ⟨e, he⟩ := hparse
  refine ⟨e, ?_⟩
  show memberLoopF _ _ = _
  exact memberLoopF_of_error _ he (by rw [hflen]; omega)

/-- C3 amended witness: a concrete trailer bit flip that is rejected. -/
theorem trailer_bitflip_fails_witness :
    ∃ e, inflateMembers (flipBit (compress [] 3 1) 15 0) = .error e :=
  trailer_bitflip_fails [] 3 1 15 0 (by norm_num) (by norm_num)
    (by decide) (by decide)

/-- C6: the final 8 bytes of every compressed stream are the little-endian
CRC32 of the original input followed by the little-endian original length
modulo 2^32. -/
theorem trailer_is_crc_and_length (S : List Nat) (lvl threads : Nat)
    (h : lvl ≤ 9) :
    (compress S lvl threads).drop ((compress S lvl threads).length - 8) =
      toLE32 (crc32 S) ++ toLE32 (S.length % 4294967296) ∧
    readLE32At ((compress S lvl threads).drop
      ((compress S lvl threads).length - 8)) 0 = crc32 S ∧
    readLE32At ((compress S lvl threads).drop
      ((compress S lvl threads).length - 8)) 4 = S.length % 4294967296 := by
  have hPT : compress S lvl threads =
      (mkHeader lvl ++ encodeBlocks (blockSplit S)) ++ mkTrailer S := by
    simp [compress]
  have hTlen := mkTrailer_length S
  have hdrop : (compress S lvl threads).drop
      ((compress S lvl threads).length - 8) = mkTrailer S := by
    rw [hPT, List.length_append, hTlen]
    have harith : (mkHeader lvl ++ encodeBlocks (blockSplit S)).length + 8 - 8 =
        (mkHeader lvl ++ encodeBlocks (blockSplit S)).length := by omega
    rw [harith, List.drop_left]
  rw [hdrop]
  exact ⟨rfl, readLE32At_mkTrailer0 S, readLE32At_mkTrailer4 S⟩

/-- C6 witness: the trailer of a concrete one-byte compression. -/
theorem trailer_is_crc_and_length_witness :
    (compress [5] 0 1).drop ((compress [5] 0 1).length - 8) =
      toLE32 (crc32 [5]) ++ toLE32 ([5].length % 4294967296) ∧
    readLE32At ((compress [5] 0 1).drop
      ((compress [5] 0 1).length - 8)) 0 = crc32 [5] ∧
    readLE32At ((compress [5] 0 1).drop
      ((compress [5] 0 1).length - 8)) 4 = [5].length % 4294967296 :=
  trailer_is_crc_and_length [5] 0 1 (by norm_num)

/-- C7: compress produces a single well-formed gzip stream — the fixed
10-byte header beginning 0x1f 0x8b 8 0, a well-formed sequence of deflate
blocks encoding exactly the input in which only the last block carries the
BFINAL bit (the shape enforced by `DeflateSeq`), and the 8-byte trailer. -/
theorem compress_single_valid_gzip (S : List Nat) (lvl threads : Nat)
    (h : lvl ≤ 9) :
    ∃ B, compress S lvl threads = mkHeader lvl ++ B ++ mkTrailer S ∧
      DeflateSeq B S ∧ (mkHeader lvl).length = 10 ∧
      (mkHeader lvl).take 4 = [31, 139, 8, 0] ∧ (mkTrailer S).length = 8 := by
  refine ⟨encodeBlocks (blockSplit S), ?_, deflateSeq_compress S, ?_, ?_,
    mkTrailer_length S⟩
  · simp [compress]
  · simp [mkHeader]
  · simp [mkHeader]

/-- C7 witness: the wire format of a concrete compression. -/
theorem compress_single_valid_gzip_witness :
    ∃ B, compress [7, 7] 9 8 = mkHeader 9 ++ B ++ mkTrailer [7, 7] ∧
      DeflateSeq B [7, 7] ∧ (mkHeader 9).length = 10 ∧
      (mkHeader 9).take 4 = [31, 139, 8, 0] ∧ (mkTrailer [7, 7]).length = 8 :=
  compress_single_valid_gzip [7, 7] 9 8 (by norm_num)

lemma compressLoop_error (e : AppError) (rest : List ReadStep) :
    ∀ (good : List (List Nat)) (w d : List Nat),
    compressLoop w d (good.map ReadStep.chunk ++ ReadStep.fail e :: rest) =
      (.error e, w ++ (good.map (encodeStoredBlock false)).flatten) := by
  intro good
  induction good with
  | nil => intro w d; simp [compressLoop]
  | cons c t ih =>
    intro w d
    simp only [List.map_cons, List.cons_append, List.append_eq, compressLoop]
    rw [ih (w ++ encodeStoredBlock false c) (d ++ c)]
    simp [List.flatten_cons, List.append_assoc]

/-- C8: if reading from the source or writing compressed data fails at any
point during the copy loop of run_compress, the run aborts with that error
and the sink holds exactly the header plus the non-final blocks already
flushed — the finish step that would emit the terminal block and the
8-byte trailer is never reached. -/
theorem compress_error_aborts_without_trailer (lvl : Nat)
    (good : List (List Nat)) (e : AppError) (rest : List ReadStep) :
    runCompressEvents lvl
        (good.map ReadStep.chunk ++ ReadStep.fail e :: rest) =
      (.error e,
        mkHeader lvl ++ (good.map (encodeStoredBlock false)).flatten) := by
  show compressLoop _ _ _ = _
  exact compressLoop_error e rest good (mkHeader lvl) []

/-- C4: a compression level greater than 9 is rejected with the
configuration error before any I/O action happens — the step trace is
empty, so nothing is opened and no byte is read. -/
theorem invalid_level_rejected_before_io (o : Opts) (cpus : Nat)
    (r : Except AppError Unit) (h : 9 < o.compression_level) :
    mainModel o cpus r =
      (.failure (.msgErr "Invalid compression level"), []) := by
  simp [mainModel, h]

/-- C4 witness: level 10 is rejected with an empty I/O trace. -/
theorem invalid_level_rejected_before_io_witness :
    mainModel ⟨none, none, 10, none, false⟩ 8 (.ok ()) =
      (.failure (.msgErr "Invalid compression level"), []) :=
  invalid_level_rejected_before_io ⟨none, none, 10, none, false⟩ 8 (.ok ())
    (by norm_num)

/-- C9: the level bound is checked before the mode split, so decompress
mode with a level above 9 also fails with the same configuration error. -/
theorem invalid_level_rejected_decompress_mode (o : Opts) (cpus : Nat)
    (r : Except AppError Unit) (hd : o.decompress = true)
    (h : 9 < o.compression_level) :
    mainModel o cpus r =
      (.failure (.msgErr "Invalid compression level"), []) := by
  simp [mainModel, h]

/-- C9 witness: decompress mode with level 10. -/
theorem invalid_level_rejected_decompress_mode_witness :
    mainModel ⟨none, none, 10, none, true⟩ 8 (.ok ()) =
      (.failure (.msgErr "Invalid compression level"), []) :=
  invalid_level_rejected_decompress_mode ⟨none, none, 10, none, true⟩ 8
    (.ok ()) rfl (by norm_num)

/-- C5: a run failure whose root cause is a broken-pipe I/O error is
downgraded to a clean success termination; a failure with any other root
cause is propagated as a failure. -/
theorem broken_pipe_downgraded (o : Opts) (cpus : Nat) (e : AppError)
    (h : o.compression_level ≤ 9) :
    (is_broken_pipe e = true ↔ e = .ioErr .brokenPipe) ∧
    (is_broken_pipe e = true →
      (mainModel o cpus (.error e)).1 = .success) ∧
    (is_broken_pipe e = false →
      (mainModel o cpus (.error e)).1 = .failure e) := by
  have h9 : ¬9 < o.compression_level := by omega
  refine ⟨?_, ?_, ?_⟩
  · cases e with
    | ioErr k => cases k <;> simp [is_broken_pipe]
    | msgErr s => simp [is_broken_pipe]
  · intro hb
    simp [mainModel, h9, hb]
  · intro hb
    simp [mainModel, h9, hb]

/-- C5 witness: a broken-pipe failure at level 3 terminates cleanly. -/
theorem broken_pipe_downgraded_witness :
    (is_broken_pipe (.ioErr .brokenPipe) = true ↔
      (AppError.ioErr .brokenPipe) = .ioErr .brokenPipe) ∧
    (is_broken_pipe (.ioErr .brokenPipe) = true →
      (mainModel ⟨none, none, 3, none, true⟩ 8
        (.error (.ioErr .brokenPipe))).1 = .success) ∧
    (is_broken_pipe (.ioErr .brokenPipe) = false →
      (mainModel ⟨none, none, 3, none, true⟩ 8
        (.error (.ioErr .brokenPipe))).1 = .failure (.ioErr .brokenPipe)) :=
  broken_pipe_downgraded ⟨none, none, 3, none, true⟩ 8 (.ioErr .brokenPipe)
    (by norm_num)

/-- C10: the thread count is never validated — whatever value is supplied
(including 0) is passed unchanged to the compressor builder, the number of
logical CPUs is used when none is supplied, and no configuration error
arises from the thread count. -/
theorem thread_count_never_validated (o : Opts) (cpus : Nat)
    (r : Except AppError Unit) (h : o.compression_level ≤ 9)
    (hd : o.decompress = false) :
    (mainModel o cpus r).2 = [.openInput, .openOutput,
      .runCompressStep o.compression_level
        (o.compression_threads.getD cpus)] ∧
    (o.compression_threads = none →
      (mainModel o cpus r).2 = [.openInput, .openOutput,
        .runCompressStep o.compression_level cpus]) ∧
    (∀ t, o.compression_threads = some t →
      (mainModel o cpus r).2 = [.openInput, .openOutput,
        .runCompressStep o.compression_level t]) ∧
    (r = .ok () → (mainModel o cpus r).1 = .success) := by
  have h9 : ¬9 < o.compression_level := by omega
  have hsteps : (mainModel o cpus r).2 = [MainStep.openInput,
      MainStep.openOutput, MainStep.runCompressStep o.compression_level
        (o.compression_threads.getD cpus)] := by
    cases r with
    | ok u => simp [mainModel, h9, hd]
    | error e => by_cases hb : is_broken_pipe e <;> simp [mainModel, h9, hd, hb]
  refine ⟨hsteps, ?_, ?_, ?_⟩
  · intro hn
    rw [hsteps, hn]
    rfl
  · intro t ht
    rw [hsteps, ht]
    rfl
  · intro hr
    subst hr
    simp [mainModel, h9]

/-- C10 witness: thread count 0 is passed straight through and the run
succeeds. -/
theorem thread_count_never_validated_witness :
    (mainModel ⟨none, none, 3, some 0, false⟩ 4 (.ok ())).2 =
      [.openInput, .openOutput, .runCompressStep 3
        ((some 0).getD 4)] ∧
    ((some (0:Nat)) = none →
      (mainModel ⟨none, none, 3, some 0, false⟩ 4 (.ok ())).2 =
        [.openInput, .openOutput, .runCompressStep 3 4]) ∧
    (∀ t, (some (0:Nat)) = some t →
      (mainModel ⟨none, none, 3, some 0, false⟩ 4 (.ok ())).2 =
        [.openInput, .openOutput, .runCompressStep 3 t]) ∧
    ((Except.ok () : Except AppError Unit) = .ok () →
      (mainModel ⟨none, none, 3, some 0, false⟩ 4 (.ok ())).1 = .success) :=
  thread_count_never_validated ⟨none, none, 3, some 0, false⟩ 4 (.ok ())
    (by norm_num) rfl

end Crabz
